import Mathlib

/-!
Shallow embedding of the payment and currency helper modules of a
point-of-sale web front-end (payment-calculations composable, quick-amounts
composable, payment-numpad composable, currency utility).

JavaScript numeric values are modelled as exact rationals; a JavaScript
value that may be NaN (or non-numeric) is modelled as `Option ℚ`, with
`none` playing the role of NaN.  JavaScript strings are modelled as
`List Char`.  The reactive `computed` wrappers are modelled as plain
functions of their inputs.
-/

namespace PaymentCalc

/-- ECMA semantics of `Number(Number(val).toFixed(2))` on a numeric value:
`toFixed(2)` picks the integer n for which n / 100 is as close to the value
as possible, the larger n on ties, and prints n / 100 with two fraction
digits; `Number(...)` reads that decimal string back, yielding n / 100
exactly. -/
def toFixed2 (x : ℚ) : ℚ :=
  ((if x * 100 - ⌊x * 100⌋ < 1 / 2 then ⌊x * 100⌋ else ⌊x * 100⌋ + 1 : ℤ) : ℚ) / 100

/-- The function `round2` of the payment-calculations module:
`Number(Number(val).toFixed(2))`.  On NaN, `toFixed` prints `"NaN"` and
`Number` parses it back to NaN, so NaN propagates. -/
def round2 (v : Option ℚ) : Option ℚ :=
  v.map toFixed2

/-- One tendered payment entry; `amount` is `none` when the field is
missing. -/
structure PaymentEntry where
  amount : Option ℚ

/-- JavaScript `entry.amount || 0`: a missing (or zero) amount is replaced
by 0. -/
def orZero (a : Option ℚ) : ℚ :=
  a.getD 0

/-- The computed value `totalPaid`:
`round2(paymentEntries.reduce((acc, entry) => acc + (entry.amount || 0), 0))`. -/
def totalPaid (paymentEntries : List PaymentEntry) : ℚ :=
  toFixed2 (paymentEntries.foldl (fun acc entry => acc + orZero entry.amount) 0)

/-- The computed value `remainingAmount`:
`const remaining = round2(grandTotal.value) - totalPaid.value;
return remaining > 0 ? round2(remaining) : 0`. -/
def remainingAmount (paymentEntries : List PaymentEntry) (grandTotal : ℚ) : ℚ :=
  if 0 < toFixed2 grandTotal - totalPaid paymentEntries then
    toFixed2 (toFixed2 grandTotal - totalPaid paymentEntries)
  else 0

/-- The computed value `changeAmount`:
`const change = totalPaid.value - round2(grandTotal.value);
return change > 0 ? round2(change) : 0`. -/
def changeAmount (paymentEntries : List PaymentEntry) (grandTotal : ℚ) : ℚ :=
  if 0 < totalPaid paymentEntries - toFixed2 grandTotal then
    toFixed2 (totalPaid paymentEntries - toFixed2 grandTotal)
  else 0

end PaymentCalc

namespace Currency

/-- ECMA `Math.round`: the integer closest to the argument, the larger one
on ties, that is the floor of x + 1/2. -/
def jsMathRound (x : ℚ) : ℤ :=
  ⌊x + 1 / 2⌋

/-- The function `round2` of the currency utility module:
`if (typeof value !== "number" || isNaN(value)) return 0;
return Math.round(value * 100) / 100`.  NaN (and non-numeric input) is
coerced to 0. -/
def round2 (v : Option ℚ) : Option ℚ :=
  match v with
  | none => some 0
  | some q => some ((jsMathRound (q * 100) : ℚ) / 100)

/-- The fixed symbol table of the currency module. -/
def CURRENCY_SYMBOLS : List (List Char × List Char) :=
  [("EGP".data, "E£".data), ("SAR".data, "ê".data), ("AED".data, "د.إ".data),
    ("INR".data, "₹".data), ("EUR".data, "€".data), ("GBP".data, "£".data),
    ("JPY".data, "¥".data), ("CNY".data, "¥".data), ("USD".data, "$".data)]

/-- The helper `getCurrencySymbolOnly`: the mapped symbol when the code is
in the table, otherwise the symbol the host Intl API derives (modelled as
an oracle parameter, `none` when the API throws), otherwise the raw code. -/
def getCurrencySymbolOnly (intlSymbol : List Char → Option (List Char))
    (currency : List Char) : List Char :=
  match List.lookup currency CURRENCY_SYMBOLS with
  | some s => s
  | none =>
    match intlSymbol currency with
    | some s => s
    | none => currency

/-- Insert a comma after every third character of a reversed digit list;
the counter holds how many digits remain in the current group. -/
def commaRev : Nat → List Char → List Char
  | _, [] => []
  | 0, c :: rest => ',' :: c :: commaRev 2 rest
  | Nat.succ k, c :: rest => c :: commaRev k rest

/-- Decimal digits of a natural number with en-US thousands grouping. -/
def grouped (n : Nat) : List Char :=
  (commaRev 3 (Nat.toDigits 10 n).reverse).reverse

/-- A two-digit rendering of a number below 100. -/
def twoDigits (n : Nat) : List Char :=
  if n < 10 then '0' :: Nat.toDigits 10 n else Nat.toDigits 10 n

/-- Model of `Intl.NumberFormat(locale, minimum/maximumFractionDigits 2)`
for the default locale en-US on a nonnegative value (the module formats
only absolute values): round to 2 fraction digits half away from zero,
group the integer digits in threes, always print 2 fraction digits. -/
def intlFormat2 (q : ℚ) : List Char :=
  grouped ((⌊q * 100 + 1 / 2⌋).toNat / 100) ++ '.' :: twoDigits ((⌊q * 100 + 1 / 2⌋).toNat % 100)

/-- The function `formatCurrency` (at the default en-US locale): empty
string for non-numeric or NaN input, otherwise the symbol, a space and the
formatted absolute value, with a minus sign prepended for negatives. -/
def formatCurrency (intlSymbol : List Char → Option (List Char))
    (value : Option ℚ) (currency : List Char) : List Char :=
  match value with
  | none => []
  | some v =>
    if v < 0 then '-' :: (getCurrencySymbolOnly intlSymbol currency ++ ' ' :: intlFormat2 |v|)
    else getCurrencySymbolOnly intlSymbol currency ++ ' ' :: intlFormat2 |v|

/-- The function `getCurrencyClass`: `value < 0 ? "text-red-600" :
"text-gray-900"`.  A JavaScript comparison with NaN is false, so NaN takes
the non-negative branch. -/
def getCurrencyClass (value : Option ℚ) : List Char :=
  match value with
  | some q => if q < 0 then "text-red-600".data else "text-gray-900".data
  | none => "text-gray-900".data

end Currency

namespace Numpad

/-- JavaScript `display.split(".")[1]`: the text between the first dot and
the following dot (or the end of the string). -/
def decimalPart (display : List Char) : List Char :=
  ((display.dropWhile fun c => c ≠ '.').drop 1).takeWhile fun c => c ≠ '.'

/-- The function `numpadInput`: reject a second dot; reject any input when
two decimal digits are already present; reject any input at length 10;
otherwise append the (possibly multi-character) key text. -/
def numpadInput (display : List Char) (char : List Char) : List Char :=
  if char = ['.'] ∧ '.' ∈ display then display
  else if '.' ∈ display ∧ decimalPart display ≠ [] ∧ 2 ≤ (decimalPart display).length then
    display
  else if 10 ≤ display.length then display
  else display ++ char

/-- The function `numpadBackspace`: `slice(0, -1)` drops the last
character (a no-op on the empty buffer). -/
def numpadBackspace (display : List Char) : List Char :=
  display.dropLast

/-- The function `numpadClear`. -/
def numpadClear (_display : List Char) : List Char :=
  []

/-- One user action on the numpad. -/
inductive NumpadOp where
  | input (char : List Char)
  | backspace
  | clear

/-- Apply one numpad action to the buffer. -/
def numpadStep (display : List Char) (op : NumpadOp) : List Char :=
  match op with
  | .input c => numpadInput display c
  | .backspace => numpadBackspace display
  | .clear => numpadClear display

/-- Run a sequence of numpad actions from the empty buffer. -/
def runNumpad (ops : List NumpadOp) : List Char :=
  ops.foldl numpadStep []

/-- The key texts the keypad can send, per the source doc comment:
the digits 0 to 9, the dot, and the double-zero key. -/
def keypadChars : List (List Char) :=
  [['0'], ['1'], ['2'], ['3'], ['4'], ['5'], ['6'], ['7'], ['8'], ['9'], ['.'], ['0', '0']]

/-- The buffer invariant stated by the spec: at most one dot, at most two
digits after the dot, length at most 10. -/
def BufferInvariant (display : List Char) : Prop :=
  display.count '.' ≤ 1 ∧ (decimalPart display).length ≤ 2 ∧ display.length ≤ 10

instance (display : List Char) : Decidable (BufferInvariant display) :=
  inferInstanceAs (Decidable (display.count '.' ≤ 1 ∧
    (decimalPart display).length ≤ 2 ∧ display.length ≤ 10))

end Numpad

namespace QuickAmounts

/-- JavaScript `const exactAmount = Math.ceil(remaining)`. -/
def exactAmountFor (remaining : ℚ) : ℚ :=
  (⌈remaining⌉ : ℚ)

/-- The denomination ladder chosen by magnitude band in the quick-amounts
composable. -/
def denominationsFor (remaining : ℚ) : List ℚ :=
  if remaining < 20 then [5, 10, 20, 50]
  else if remaining < 100 then [10, 20, 50, 100]
  else if remaining < 500 then [50, 100, 200, 500]
  else if remaining < 2000 then [100, 200, 500, 1000]
  else [500, 1000, 2000, 5000]

/-- JavaScript `const minGap = Math.max(5, exactAmount * 0.05)`. -/
def minGapFor (remaining : ℚ) : ℚ :=
  max 5 (exactAmountFor remaining * (0.05 : ℚ))

/-- JavaScript helper `isFarEnough`: a candidate is accepted only when its
distance to every already collected amount is at least `minGap`. -/
def isFarEnough (minGap : ℚ) (amounts : List ℚ) (newAmt : ℚ) : Bool :=
  amounts.all fun existing => !(decide (|newAmt - existing| < minGap))

/-- One guarded `amounts.add(amt)` of the quick-amounts loop: the candidate
is appended when it exceeds the exact amount and is far enough from every
collected amount.  (A JS `Set` is modelled as the insertion-ordered list of
its elements; the guard makes duplicates impossible.) -/
def tryAdd (exactAmount minGap : ℚ) (amounts : List ℚ) (amt : ℚ) : List ℚ :=
  if exactAmount < amt ∧ isFarEnough minGap amounts amt then amounts ++ [amt]
  else amounts

/-- The second half of one loop iteration: `if (amounts.size < 4)` then try
the one-step-higher candidate. -/
def stepTwo (exactAmount minGap : ℚ) (amounts1 : List ℚ) (oneStepUp : ℚ) : List ℚ :=
  if amounts1.length < 4 then tryAdd exactAmount minGap amounts1 oneStepUp
  else amounts1

/-- One iteration of `for (const denom of denominations)`: stop when 4
amounts are collected, otherwise try the round-up of remaining to the next
multiple of the denomination, then (if still below 4) one further step. -/
def stepDenom (remaining exactAmount minGap : ℚ) (amounts : List ℚ) (denom : ℚ) : List ℚ :=
  if 4 ≤ amounts.length then amounts
  else
    stepTwo exactAmount minGap
      (tryAdd exactAmount minGap amounts ((⌈remaining / denom⌉ : ℚ) * denom))
      ((⌈remaining / denom⌉ : ℚ) * denom + denom)

/-- The collected amounts after the denomination loop, starting from the
set that holds only the exact amount. -/
def rawAmounts (remaining : ℚ) : List ℚ :=
  (denominationsFor remaining).foldl
    (stepDenom remaining (exactAmountFor remaining) (minGapFor remaining))
    [exactAmountFor remaining]

/-- JavaScript `Array.from(amounts).filter((amt) => amt > 0).sort((a, b) => a - b)`. -/
def sortedAmounts (remaining : ℚ) : List ℚ :=
  ((rawAmounts remaining).filter fun amt => decide (0 < amt)).insertionSort (· ≤ ·)

/-- The computed value `quickAmounts`: the fixed fallback for a
non-positive remaining amount, otherwise the filtered, sorted collection
truncated by `slice(0, 4)`. -/
def quickAmounts (remaining : ℚ) : List ℚ :=
  if remaining ≤ 0 then [10, 20, 50, 100]
  else (sortedAmounts remaining).take 4

/-- Loop invariant of the collection phase: at most 4 amounts, the exact
amount is present and is a lower bound, and all amounts are pairwise at
least `minGap` apart. -/
def Inv (exactAmount minGap : ℚ) (l : List ℚ) : Prop :=
  l.length ≤ 4 ∧ exactAmount ∈ l ∧ (∀ x ∈ l, exactAmount ≤ x) ∧
    l.Pairwise fun a b => minGap ≤ |a - b|

end QuickAmounts

open PaymentCalc QuickAmounts Currency Numpad

theorem totalPaid_def (paymentEntries : List PaymentEntry) :
    totalPaid paymentEntries =
      toFixed2 (paymentEntries.foldl (fun acc entry => acc + orZero entry.amount) 0) :=
  rfl

theorem remainingAmount_def (paymentEntries : List PaymentEntry) (grandTotal : ℚ) :
    remainingAmount paymentEntries grandTotal =
      if 0 < toFixed2 grandTotal - totalPaid paymentEntries then
        toFixed2 (toFixed2 grandTotal - totalPaid paymentEntries)
      else 0 :=
  rfl

theorem changeAmount_def (paymentEntries : List PaymentEntry) (grandTotal : ℚ) :
    changeAmount paymentEntries grandTotal =
      if 0 < totalPaid paymentEntries - toFixed2 grandTotal then
        toFixed2 (totalPaid paymentEntries - toFixed2 grandTotal)
      else 0 :=
  rfl

theorem toFixed2_eq_floor (x : ℚ) :
    toFixed2 x = ((⌊x * 100 + 1 / 2⌋ : ℤ) : ℚ) / 100 := by
  have key : (if x * 100 - ⌊x * 100⌋ < 1 / 2 then ⌊x * 100⌋ else ⌊x * 100⌋ + 1) =
      ⌊x * 100 + 1 / 2⌋ := by
    by_cases h : x * 100 - ⌊x * 100⌋ < 1 / 2
    · rw [if_pos h]
      symm
      rw [Int.floor_eq_iff]
      have hle := Int.floor_le (x * 100)
      constructor
      · linarith
      · linarith
    · rw [if_neg h]
      push_neg at h
      symm
      rw [Int.floor_eq_iff]
      have hlt := Int.lt_floor_add_one (x * 100)
      constructor
      · push_cast
        linarith
      · push_cast
        linarith
  unfold toFixed2
  rw [key]

theorem toFixed2_intDiv (n : ℤ) : toFixed2 ((n : ℚ) / 100) = (n : ℚ) / 100 := by
  rw [toFixed2_eq_floor]
  have h : (n : ℚ) / 100 * 100 = (n : ℚ) := by
    field_simp
  rw [h]
  have hfloor : ⌊(n : ℚ) + 1 / 2⌋ = n := by
    rw [Int.floor_int_add]
    have hhalf : ⌊(1 / 2 : ℚ)⌋ = 0 := by
      rw [Int.floor_eq_iff]
      norm_num
    rw [hhalf, add_zero]
  rw [hfloor]

theorem toFixed2_eq_num (x : ℚ) : ∃ n : ℤ, toFixed2 x = (n : ℚ) / 100 :=
  ⟨⌊x * 100 + 1 / 2⌋, toFixed2_eq_floor x⟩

theorem toFixed2_idem (x : ℚ) : toFixed2 (toFixed2 x) = toFixed2 x := by
  obtain ⟨n, hn⟩ := toFixed2_eq_num x
  rw [hn, toFixed2_intDiv]

theorem toFixed2_zero : toFixed2 0 = 0 := by
  have h := toFixed2_intDiv 0
  simpa using h

theorem toFixed2_mono {x y : ℚ} (h : x ≤ y) : toFixed2 x ≤ toFixed2 y := by
  rw [toFixed2_eq_floor, toFixed2_eq_floor]
  have hfl : ⌊x * 100 + 1 / 2⌋ ≤ ⌊y * 100 + 1 / 2⌋ :=
    Int.floor_mono (by linarith)
  have hq : ((⌊x * 100 + 1 / 2⌋ : ℤ) : ℚ) ≤ ((⌊y * 100 + 1 / 2⌋ : ℤ) : ℚ) := by
    exact_mod_cast hfl
  linarith

theorem foldl_orZero_eq_sum (paymentEntries : List PaymentEntry) :
    ∀ acc : ℚ,
      paymentEntries.foldl (fun acc entry => acc + orZero entry.amount) acc =
        acc + (paymentEntries.map (fun entry => orZero entry.amount)).sum := by
  induction paymentEntries with
  | nil =>
    intro acc
    simp
  | cons e tl ih =>
    intro acc
    simp only [List.foldl_cons, List.map_cons, List.sum_cons, ih]
    ring

theorem currencyRound2_some_eq_toFixed2 (q : ℚ) :
    Currency.round2 (some q) = some (toFixed2 q) := by
  simp only [Currency.round2, Currency.jsMathRound]
  rw [toFixed2_eq_floor]

/-- C1: for every list of payment entries and every grand total (the
customer balance does not enter this derivation), `remainingAmount` equals
max(0, round2(round2(grandTotal) - totalPaid)); it is never negative, and
it is 0 whenever totalPaid is at least grandTotal. -/
theorem c1_remainingAmount_max (paymentEntries : List PaymentEntry) (grandTotal : ℚ) :
    remainingAmount paymentEntries grandTotal =
      max 0 (toFixed2 (toFixed2 grandTotal - totalPaid paymentEntries)) ∧
    0 ≤ remainingAmount paymentEntries grandTotal ∧
    (grandTotal ≤ totalPaid paymentEntries →
      remainingAmount paymentEntries grandTotal = 0) := by
  obtain ⟨a, ha⟩ := toFixed2_eq_num grandTotal
  obtain ⟨b, hb⟩ :=
    toFixed2_eq_num (paymentEntries.foldl (fun acc entry => acc + orZero entry.amount) 0)
  have htp : totalPaid paymentEntries = (b : ℚ) / 100 := by
    rw [totalPaid_def, hb]
  have hdiff : toFixed2 grandTotal - totalPaid paymentEntries = ((a - b : ℤ) : ℚ) / 100 := by
    rw [ha, htp]
    push_cast
    ring
  have hfix : toFixed2 (toFixed2 grandTotal - totalPaid paymentEntries) =
      toFixed2 grandTotal - totalPaid paymentEntries := by
    rw [hdiff, toFixed2_intDiv]
  refine ⟨?_, ?_, ?_⟩
  · rw [remainingAmount_def, hfix]
    rcases lt_or_le 0 (toFixed2 grandTotal - totalPaid paymentEntries) with h | h
    · rw [if_pos h, max_eq_right h.le]
    · rw [if_neg (not_lt.mpr h), max_eq_left h]
  · rw [remainingAmount_def]
    rcases lt_or_le 0 (toFixed2 grandTotal - totalPaid paymentEntries) with h | h
    · rw [if_pos h, hfix]
      exact h.le
    · rw [if_neg (not_lt.mpr h)]
  · intro hle
    have h1 : toFixed2 grandTotal ≤ totalPaid paymentEntries := by
      calc toFixed2 grandTotal ≤ toFixed2 (totalPaid paymentEntries) := toFixed2_mono hle
        _ = totalPaid paymentEntries := by rw [htp, toFixed2_intDiv]
    rw [remainingAmount_def, if_neg (not_lt.mpr (by linarith))]

/-- C1 witness: with one payment of 5 against a grand total of 3, the
equation holds, the remaining amount is nonnegative, and since the total
paid exceeds the grand total the remaining amount is 0. -/
theorem c1_remainingAmount_max_witness :
    remainingAmount [⟨some 5⟩] 3 =
      max 0 (toFixed2 (toFixed2 3 - totalPaid [⟨some 5⟩])) ∧
    0 ≤ remainingAmount [⟨some 5⟩] 3 ∧
    remainingAmount [⟨some 5⟩] 3 = 0 := by
  obtain ⟨h1, h2, h3⟩ := c1_remainingAmount_max [⟨some 5⟩] 3
  have htp5 : totalPaid [⟨some (5 : ℚ)⟩] = 5 := by
    rw [totalPaid_def]
    norm_num [List.foldl_cons, List.foldl_nil, orZero, toFixed2_eq_floor]
  exact ⟨h1, h2, h3 (by rw [htp5]; norm_num)⟩

/-- C2: for the same entries and grand total, `changeAmount` and
`remainingAmount` are never both strictly positive: at least one of them
is 0. -/
theorem c2_change_remaining_exclusive (paymentEntries : List PaymentEntry) (grandTotal : ℚ) :
    remainingAmount paymentEntries grandTotal = 0 ∨
    changeAmount paymentEntries grandTotal = 0 := by
  rcases lt_or_le 0 (toFixed2 grandTotal - totalPaid paymentEntries) with h | h
  · right
    rw [changeAmount_def, if_neg (not_lt.mpr (by linarith))]
  · left
    rw [remainingAmount_def, if_neg (not_lt.mpr h)]

/-- C5: the two in-repo copies of `round2` agree on every numeric
(non-NaN) input, and differ exactly on NaN: the payment-calculations copy
propagates NaN while the currency copy coerces it to 0.  (JavaScript
numbers are modelled as exact rationals.) -/
theorem c5_round2_copies_agree :
    (∀ q : ℚ, PaymentCalc.round2 (some q) = Currency.round2 (some q)) ∧
    PaymentCalc.round2 none = none ∧
    Currency.round2 none = some 0 := by
  refine ⟨fun q => ?_, rfl, rfl⟩
  rw [currencyRound2_some_eq_toFixed2]
  rfl

/-- C6: both copies of `round2` are idempotent (on every input, NaN
included). -/
theorem c6_round2_idempotent (v : Option ℚ) :
    PaymentCalc.round2 (PaymentCalc.round2 v) = PaymentCalc.round2 v ∧
    Currency.round2 (Currency.round2 v) = Currency.round2 v := by
  constructor
  · cases v with
    | none => rfl
    | some q => simp [PaymentCalc.round2, toFixed2_idem]
  · cases v with
    | none =>
      rw [show Currency.round2 none = some 0 from rfl,
        currencyRound2_some_eq_toFixed2, toFixed2_zero]
    | some q =>
      rw [currencyRound2_some_eq_toFixed2, currencyRound2_some_eq_toFixed2,
        toFixed2_idem]

/-- C7: `totalPaid` is round2 of the sum of the entry amounts (a missing
amount counting as 0), and on the entries [(amount 10.1), (amount 5)] it
is exactly 15.1. -/
theorem c7_totalPaid_sum (paymentEntries : List PaymentEntry) :
    totalPaid paymentEntries =
      toFixed2 ((paymentEntries.map (fun entry => orZero entry.amount)).sum) ∧
    totalPaid [⟨some (10.1 : ℚ)⟩, ⟨some 5⟩] = 15.1 := by
  constructor
  · rw [totalPaid_def, foldl_orZero_eq_sum, zero_add]
  · rw [totalPaid_def]
    norm_num [List.foldl_cons, List.foldl_nil, orZero, toFixed2_eq_floor]

theorem isFarEnough_iff (minGap : ℚ) (amounts : List ℚ) (newAmt : ℚ) :
    isFarEnough minGap amounts newAmt = true ↔ ∀ x ∈ amounts, minGap ≤ |newAmt - x| := by
  simp [isFarEnough, not_lt]

theorem inv_append {exactAmount minGap : ℚ} {l : List ℚ} {y : ℚ}
    (h : Inv exactAmount minGap l) (hlen : l.length ≤ 3) (hy : exactAmount < y)
    (hfar : ∀ x ∈ l, minGap ≤ |y - x|) : Inv exactAmount minGap (l ++ [y]) := by
  obtain ⟨h1, h2, h3, h4⟩ := h
  refine ⟨?_, ?_, ?_, ?_⟩
  · simp only [List.length_append, List.length_cons, List.length_nil]
    omega
  · exact List.mem_append_left _ h2
  · intro x hx
    rcases List.mem_append.mp hx with hx | hx
    · exact h3 x hx
    · have hxy : x = y := by simpa using hx
      exact hxy ▸ hy.le
  · rw [List.pairwise_append]
    refine ⟨h4, List.pairwise_singleton _ _, ?_⟩
    intro a ha b hb
    have hby : b = y := by simpa using hb
    subst hby
    rw [abs_sub_comm]
    exact hfar a ha

theorem tryAdd_inv {exactAmount minGap : ℚ} {l : List ℚ} (amt : ℚ)
    (h : Inv exactAmount minGap l) (hlen : l.length ≤ 3) :
    Inv exactAmount minGap (tryAdd exactAmount minGap l amt) := by
  unfold tryAdd
  split_ifs with hc
  · exact inv_append h hlen hc.1 ((isFarEnough_iff _ _ _).mp hc.2)
  · exact h

theorem stepTwo_inv {exactAmount minGap : ℚ} {l : List ℚ} (y : ℚ)
    (h : Inv exactAmount minGap l) :
    Inv exactAmount minGap (stepTwo exactAmount minGap l y) := by
  unfold stepTwo
  split_ifs with hc
  · exact tryAdd_inv y h (by omega)
  · exact h

theorem stepDenom_inv {remaining exactAmount minGap : ℚ} {l : List ℚ} (d : ℚ)
    (h : Inv exactAmount minGap l) :
    Inv exactAmount minGap (stepDenom remaining exactAmount minGap l d) := by
  unfold stepDenom
  split_ifs with hc
  · exact h
  · have hlen : l.length ≤ 3 := by omega
    exact stepTwo_inv _ (tryAdd_inv _ h hlen)

theorem foldl_inv (remaining exactAmount minGap : ℚ) (ds : List ℚ) :
    ∀ l, Inv exactAmount minGap l →
      Inv exactAmount minGap (ds.foldl (stepDenom remaining exactAmount minGap) l) := by
  induction ds with
  | nil =>
    intro l h
    simpa using h
  | cons d tl ih =>
    intro l h
    rw [List.foldl_cons]
    exact ih _ (stepDenom_inv d h)

theorem rawAmounts_inv (remaining : ℚ) :
    Inv (exactAmountFor remaining) (minGapFor remaining) (rawAmounts remaining) := by
  unfold rawAmounts
  apply foldl_inv
  refine ⟨by simp, by simp, ?_, by simp⟩
  intro x hx
  have hxe : x = exactAmountFor remaining := by simpa using hx
  exact hxe.ge

theorem minGapFor_pos (remaining : ℚ) : 0 < minGapFor remaining :=
  lt_of_lt_of_le (by norm_num) (le_max_left _ _)

theorem sortedAmounts_perm (remaining : ℚ) :
    List.Perm (sortedAmounts remaining)
      ((rawAmounts remaining).filter fun amt => decide (0 < amt)) :=
  List.perm_insertionSort _ _

theorem sortedAmounts_length (remaining : ℚ) : (sortedAmounts remaining).length ≤ 4 := by
  rw [(sortedAmounts_perm remaining).length_eq]
  exact le_trans (List.length_filter_le _ _) (rawAmounts_inv remaining).1

theorem quickAmounts_pos_eq {remaining : ℚ} (h : 0 < remaining) :
    quickAmounts remaining = sortedAmounts remaining := by
  unfold quickAmounts
  rw [if_neg (not_le.mpr h), List.take_of_length_le (sortedAmounts_length remaining)]

theorem sortedAmounts_gap (remaining : ℚ) :
    (sortedAmounts remaining).Pairwise fun a b => minGapFor remaining ≤ |a - b| := by
  have hgapF : (rawAmounts remaining).Pairwise
      (fun a b => minGapFor remaining ≤ |a - b|) := (rawAmounts_inv remaining).2.2.2
  have hgapP := hgapF.filter fun amt => decide (0 < amt)
  exact ((sortedAmounts_perm remaining).pairwise_iff
    (fun hab => by rwa [abs_sub_comm])).mpr hgapP

theorem sortedAmounts_nodup (remaining : ℚ) : (sortedAmounts remaining).Nodup := by
  have hgap := sortedAmounts_gap remaining
  refine hgap.imp ?_
  intro a b hab heq
  subst heq
  simp only [sub_self, abs_zero] at hab
  exact absurd hab (not_le.mpr (minGapFor_pos remaining))

/-- C3: for every strictly positive remaining amount, the quick-amount
suggestions are at most 4, duplicate-free, sorted strictly ascending, all
strictly positive, each at least the ceiling of the remaining amount, and
pairwise at least minGap = max(5, ceil(remaining) * 0.05) apart. -/
theorem c3_quickAmounts_shape (remaining : ℚ) (hpos : 0 < remaining) :
    (quickAmounts remaining).length ≤ 4 ∧
    (quickAmounts remaining).Nodup ∧
    (quickAmounts remaining).Sorted (· < ·) ∧
    (∀ x ∈ quickAmounts remaining, 0 < x) ∧
    (∀ x ∈ quickAmounts remaining, exactAmountFor remaining ≤ x) ∧
    (quickAmounts remaining).Pairwise (fun a b => minGapFor remaining ≤ |a - b|) := by
  rw [quickAmounts_pos_eq hpos]
  have hinv := rawAmounts_inv remaining
  have hperm := sortedAmounts_perm remaining
  have hnodup := sortedAmounts_nodup remaining
  have hsortLe : (sortedAmounts remaining).Sorted (· ≤ ·) :=
    List.sorted_insertionSort _ _
  refine ⟨sortedAmounts_length remaining, hnodup, hsortLe.lt_of_le hnodup, ?_, ?_,
    sortedAmounts_gap remaining⟩
  · intro x hx
    have hxP := hperm.mem_iff.mp hx
    exact of_decide_eq_true (List.mem_filter.mp hxP).2
  · intro x hx
    have hxP := hperm.mem_iff.mp hx
    exact hinv.2.2.1 x (List.mem_filter.mp hxP).1

/-- C3 witness: the claim instantiated at remaining = 37, with the
positivity hypothesis discharged concretely. -/
theorem c3_quickAmounts_shape_witness :
    (0 : ℚ) < 37 ∧
    ((quickAmounts 37).length ≤ 4 ∧
    (quickAmounts 37).Nodup ∧
    (quickAmounts 37).Sorted (· < ·) ∧
    (∀ x ∈ quickAmounts 37, 0 < x) ∧
    (∀ x ∈ quickAmounts 37, exactAmountFor 37 ≤ x) ∧
    (quickAmounts 37).Pairwise (fun a b => minGapFor 37 ≤ |a - b|)) :=
  ⟨by norm_num, c3_quickAmounts_shape 37 (by norm_num)⟩

/-- C8: a non-positive remaining amount yields exactly the fallback list
[10, 20, 50, 100], and a strictly positive remaining amount always yields
a list containing ceil(remaining). -/
theorem c8_quickAmounts_fallback_exact (remaining : ℚ) :
    (remaining ≤ 0 → quickAmounts remaining = [10, 20, 50, 100]) ∧
    (0 < remaining → exactAmountFor remaining ∈ quickAmounts remaining) := by
  constructor
  · intro h
    unfold quickAmounts
    rw [if_pos h]
  · intro h
    rw [quickAmounts_pos_eq h]
    have hexact_pos : (0 : ℚ) < exactAmountFor remaining := by
      unfold exactAmountFor
      exact_mod_cast Int.ceil_pos.mpr h
    apply (sortedAmounts_perm remaining).mem_iff.mpr
    exact List.mem_filter.mpr ⟨(rawAmounts_inv remaining).2.1, decide_eq_true hexact_pos⟩

/-- C8 witness: at remaining = 0 the fallback list is returned, and at
remaining = 37 the ceiling 37 is among the suggestions. -/
theorem c8_quickAmounts_fallback_exact_witness :
    (0 : ℚ) ≤ 0 ∧ (0 : ℚ) < 37 ∧
    quickAmounts 0 = [10, 20, 50, 100] ∧
    exactAmountFor 37 ∈ quickAmounts 37 :=
  ⟨le_refl 0, by norm_num, (c8_quickAmounts_fallback_exact 0).1 (le_refl 0),
    (c8_quickAmounts_fallback_exact 37).2 (by norm_num)⟩

/-- C4: the claim that, under keypad inputs, the numpad buffer never holds
two dots, never more than 2 digits after the dot, and never exceeds length
10 is violated by the documented double-zero key: from the empty buffer
the inputs 1, dot, 5, 00 yield the buffer "1.500" with three digits after
the dot, and nine digits followed by 00 yield an 11-character buffer.  The
decimal and length checks are bypassed because the two-character key text
is appended after they have passed. -/
theorem c4_numpad_00_breaks_invariant :
    runNumpad [.input ['1'], .input ['.'], .input ['5'], .input ['0', '0']] =
      ['1', '.', '5', '0', '0'] ∧
    ['0', '0'] ∈ keypadChars ∧
    ¬ BufferInvariant
      (runNumpad [.input ['1'], .input ['.'], .input ['5'], .input ['0', '0']]) ∧
    (runNumpad [.input ['1'], .input ['2'], .input ['3'], .input ['4'], .input ['5'],
      .input ['6'], .input ['7'], .input ['8'], .input ['9'], .input ['0', '0']]).length
      = 11 :=
  ⟨by decide, by decide, by decide, by decide⟩

/-- C9: `formatCurrency` returns the empty string on NaN or non-numeric
input; on a negative value it formats the absolute value, prefixes the
symbol and a space, and prepends a single minus sign to the whole string
(the symbol itself is not negated); concretely, formatting -5 USD starts
with a minus sign and contains the dollar sign.  The host Intl symbol
fallback is an arbitrary oracle, unused for USD which is in the table. -/
theorem c9_formatCurrency_spec (intlSymbol : List Char → Option (List Char))
    (currency : List Char) (q : ℚ) :
    formatCurrency intlSymbol none currency = [] ∧
    (q < 0 → formatCurrency intlSymbol (some q) currency =
      '-' :: (getCurrencySymbolOnly intlSymbol currency ++ ' ' :: intlFormat2 |q|)) ∧
    (∃ t, formatCurrency intlSymbol (some (-5)) "USD".data = '-' :: t) ∧
    '$' ∈ formatCurrency intlSymbol (some (-5)) "USD".data := by
  have husd : getCurrencySymbolOnly intlSymbol "USD".data = "$".data := rfl
  have hneg : formatCurrency intlSymbol (some (-5 : ℚ)) "USD".data =
      '-' :: ("$".data ++ ' ' :: intlFormat2 |(-5 : ℚ)|) := by
    show (if (-5 : ℚ) < 0 then
        '-' :: (getCurrencySymbolOnly intlSymbol "USD".data ++ ' ' :: intlFormat2 |(-5 : ℚ)|)
      else getCurrencySymbolOnly intlSymbol "USD".data ++ ' ' :: intlFormat2 |(-5 : ℚ)|) =
      '-' :: ("$".data ++ ' ' :: intlFormat2 |(-5 : ℚ)|)
    rw [if_pos (by norm_num), husd]
  refine ⟨rfl, fun hq => ?_, ⟨_, hneg⟩, ?_⟩
  · show (if q < 0 then
        '-' :: (getCurrencySymbolOnly intlSymbol currency ++ ' ' :: intlFormat2 |q|)
      else getCurrencySymbolOnly intlSymbol currency ++ ' ' :: intlFormat2 |q|) =
      '-' :: (getCurrencySymbolOnly intlSymbol currency ++ ' ' :: intlFormat2 |q|)
    rw [if_pos hq]
  · rw [hneg]
    apply List.mem_cons_of_mem
    apply List.mem_append_left
    decide

/-- C9 witness: the negative-formatting equation instantiated at value -5
and currency USD with the trivial Intl oracle, the negativity hypothesis
discharged concretely. -/
theorem c9_formatCurrency_spec_witness :
    (-5 : ℚ) < 0 ∧
    formatCurrency (fun _ => none) (some (-5)) "USD".data =
      '-' :: (getCurrencySymbolOnly (fun _ => none) "USD".data ++
        ' ' :: intlFormat2 |(-5 : ℚ)|) :=
  ⟨by norm_num,
    (c9_formatCurrency_spec (fun _ => none) "USD".data (-5)).2.1 (by norm_num)⟩

/-- C10: `getCurrencyClass` is total and returns exactly one of the two
tokens; it returns the red token exactly for negative numeric values, and
NaN (or non-numeric input) takes the non-negative branch. -/
theorem c10_getCurrencyClass_total (value : Option ℚ) :
    (getCurrencyClass value = "text-red-600".data ∨
      getCurrencyClass value = "text-gray-900".data) ∧
    (getCurrencyClass value = "text-red-600".data ↔ ∃ q, value = some q ∧ q < 0) ∧
    getCurrencyClass none = "text-gray-900".data := by
  have hne : "text-gray-900".data ≠ "text-red-600".data := by decide
  have hsome : ∀ q : ℚ, getCurrencyClass (some q) =
      if q < 0 then "text-red-600".data else "text-gray-900".data := fun q => rfl
  refine ⟨?_, ?_, rfl⟩
  · cases value with
    | none => exact Or.inr rfl
    | some q =>
      rw [hsome]
      split_ifs with h
      · exact Or.inl rfl
      · exact Or.inr rfl
  · cases value with
    | none =>
      constructor
      · intro h
        exact absurd h hne
      · rintro ⟨q, hq, _⟩
        exact Option.noConfusion hq
    | some q =>
      rw [hsome]
      split_ifs with h
      · exact ⟨fun _ => ⟨q, rfl, h⟩, fun _ => rfl⟩
      · constructor
        · intro habs
          exact absurd habs hne
        · rintro ⟨r, hr, hrneg⟩
          cases hr
          exact absurd hrneg h
